import Mathlib

/-!
Verification of the buttercup-core-heimdall vault engine.

A shallow embedding of the vault data engine: the native crypto capability
layer (src/source/env/native/crypto.ts), the Format A command-log engine
(src/source/io/VaultFormat.ts), the attachment manager
(src/source/attachments/AttachmentManager.js) and the URL search layer
(src/source/search/Search.ts).

Code of the repository that is referenced by src/source/io/VaultFormat.ts but
absent from the source tree (formatA/commands.js, formatA/tools.js,
formatA/signing.js, tools/encoding.js, tools/uuid.js) is modelled from the
specification; every such definition carries a doc comment starting with
"Modelled from the spec:".

Strings are embedded as Lean `String`s; character-level predicates mirror the
JavaScript regular expressions used by the source.
-/

/-! ## JavaScript character / regex primitives -/

/-- The JS `\s` character class (ECMAScript WhiteSpace ∪ LineTerminator),
by code point: space, tab, LF, VT, FF, CR, NBSP, Ogham space, the
U+2000–U+200A range, LS, PS, NNBSP, MMSP, ideographic space, BOM. -/
def isJsSpace (c : Char) : Bool :=
  c.toNat = 32 || c.toNat = 9 || c.toNat = 10 || c.toNat = 11 || c.toNat = 12 ||
  c.toNat = 13 || c.toNat = 0xa0 || c.toNat = 0x1680 ||
  (0x2000 ≤ c.toNat && c.toNat ≤ 0x200a) || c.toNat = 0x2028 || c.toNat = 0x2029 ||
  c.toNat = 0x202f || c.toNat = 0x205f || c.toNat = 0x3000 || c.toNat = 0xfeff

/-- ECMAScript line terminators (LF, CR, LS, PS), the characters `.` does not
match. -/
def isLineTerminator (c : Char) : Bool :=
  c.toNat = 10 || c.toNat = 13 || c.toNat = 0x2028 || c.toNat = 0x2029

/-- The JS regex class `[a-z]` (code points 97–122). -/
def isLowerAZ (c : Char) : Bool := 97 ≤ c.toNat && c.toNat ≤ 122

/-- The JS regex class `[a-f0-9]` (lowercase hex digit). -/
def isLowerHex (c : Char) : Bool :=
  (97 ≤ c.toNat && c.toNat ≤ 102) || (48 ≤ c.toNat && c.toNat ≤ 57)

/-- The JS regex class `[A-Za-z0-9]`. -/
def isAlphaNum (c : Char) : Bool :=
  (65 ≤ c.toNat && c.toNat ≤ 90) || (97 ≤ c.toNat && c.toNat ≤ 122) ||
  (48 ≤ c.toNat && c.toNat ≤ 57)

/-- ASCII lower-casing, as JS `String.prototype.toLowerCase` acts on the
ASCII opcode tokens handled by the engine. -/
def jsToLowerChar (c : Char) : Char :=
  if 65 ≤ c.toNat && c.toNat ≤ 90 then Char.ofNat (c.toNat + 32) else c

def jsToLower (s : String) : String := String.mk (s.data.map jsToLowerChar)

/-- `VALID_COMMAND_EXP = /^[a-z]{3}\s.+$/` from VaultFormat.ts line 275. -/
def validCommandL : List Char → Bool
  | c1 :: c2 :: c3 :: c4 :: rest =>
    isLowerAZ c1 && isLowerAZ c2 && isLowerAZ c3 && isJsSpace c4 &&
    !rest.isEmpty && rest.all (fun c => !isLineTerminator c)
  | _ => false

/-- The test `/^pad\s/i` used at VaultFormat.ts lines 448 and 560. -/
def padPrefixL : List Char → Bool
  | c1 :: c2 :: c3 :: c4 :: _ =>
    (c1 = 'p' || c1 = 'P') && (c2 = 'a' || c2 = 'A') &&
    (c3 = 'd' || c3 = 'D') && isJsSpace c4
  | _ => false

/-- Consume exactly `n` lowercase-hex characters, returning the remainder. -/
def consumeHex : Nat → List Char → Option (List Char)
  | 0, cs => some cs
  | n + 1, c :: cs => if isLowerHex c then consumeHex n cs else none
  | _ + 1, [] => none

/-- Consume a `-` character. -/
def consumeDash : List Char → Option (List Char)
  | '-' :: cs => some cs
  | _ => none

/-- Match `SHARE_COMMAND_EXP = /^\$<uuid>\s/` (VaultFormat.ts line 273):
on success return the 36-character share ID and the remainder of the line
after the matched whitespace (what `line.replace(SHARE_COMMAND_EXP, "")`
leaves). -/
def shareMatchL (cs : List Char) : Option (List Char × List Char) :=
  match cs with
  | [] => none
  | c :: rest =>
    if c = '$' then
      match consumeHex 8 rest >>= consumeDash >>= consumeHex 4 >>= consumeDash >>=
            consumeHex 4 >>= consumeDash >>= consumeHex 4 >>= consumeDash >>=
            consumeHex 12 with
      | some afterUuid =>
        match afterUuid with
        | w :: remainder =>
          if isJsSpace w then some (rest.take 36, remainder) else none
        | [] => none
      | none => none
    else none

/-! ## Cryptor (src/source/env/native/crypto.ts, lines 29-71)

The registered `crypto/v1/encryptText` / `crypto/v1/decryptText` capabilities
broadcast the data over IPC for logging and then resolve with the data
unchanged; the password argument is only printed.  We embed the value-level
behaviour of the returned promises. -/

/-- `decryptData` from crypto.ts lines 29-43: resolves with `data` unchanged. -/
def decryptData (data : String) (password : String) : String := data

/-- `encryptData` from crypto.ts lines 49-71: resolves with `data` unchanged. -/
def encryptData (data : String) (password : String) : String := data

/-- C1: For every plaintext `p` and every password `k`, decrypting the result
of encrypting `p` with `k`, using the same password `k`, yields `p` again.
(In this fork the registered capabilities resolve with the data unchanged,
so the round trip holds definitionally.) -/
theorem encrypt_decrypt_roundTrip (p k : String) :
    decryptData (encryptData p k) k = p := rfl

/-! ## Vault object model

`Modelled from the spec:` the concrete FormatAVault / FormatAGroup /
FormatAEntry record types (src/source/types.ts is absent from the source
tree); fields follow spec §3, with `parentID` pointers as given there. -/

/-- Per-property change item of an entry: `(property, oldValue, newValue)`
(spec §3; the wall-clock `ts` field is impure and omitted). -/
structure EntryChange where
  property : String
  oldValue : Option String
  newValue : Option String
deriving DecidableEq, Repr

structure FormatAEntry where
  id : String
  parentID : String
  properties : List (String × String)
  attributes : List (String × String)
  changes : List EntryChange
deriving DecidableEq, Repr

structure FormatAGroup where
  id : String
  parentID : String
  title : String
  attributes : List (String × String)
deriving DecidableEq, Repr

structure FormatAVault where
  id : Option String
  format : Option String
  attributes : List (String × String)
  groups : List FormatAGroup
  entries : List FormatAEntry
deriving DecidableEq, Repr

def emptyVault : FormatAVault := ⟨none, none, [], [], []⟩

/-- Association-list upsert: replace the first binding of `k`, else append. -/
def setKV (k v : String) : List (String × String) → List (String × String)
  | [] => [(k, v)]
  | (k', v') :: rest => if k' = k then (k, v) :: rest else (k', v') :: setKV k v rest

/-- Association-list lookup. -/
def getKV (k : String) : List (String × String) → Option String
  | [] => none
  | (k', v') :: rest => if k' = k then some v' else getKV k rest

/-- Association-list delete (first binding). -/
def delKV (k : String) : List (String × String) → List (String × String)
  | [] => []
  | (k', v') :: rest => if k' = k then rest else (k', v') :: delKV k rest

def groupExists (v : FormatAVault) (gid : String) : Bool := v.groups.any (fun g => g.id = gid)

def entryExists (v : FormatAVault) (eid : String) : Bool := v.entries.any (fun e => e.id = eid)

def updateGroup (v : FormatAVault) (gid : String) (f : FormatAGroup → FormatAGroup) :
    FormatAVault :=
  { v with groups := v.groups.map (fun g => if g.id = gid then f g else g) }

def updateEntry (v : FormatAVault) (eid : String) (f : FormatAEntry → FormatAEntry) :
    FormatAVault :=
  { v with entries := v.entries.map (fun e => if e.id = eid then f e else e) }

/-- Close `acc` under the child relation of the group forest, with fuel. -/
def expandDescendants (gs : List FormatAGroup) : Nat → List String → List String
  | 0, acc => acc
  | n + 1, acc =>
    let more := (gs.filter (fun g => acc.contains g.parentID && !acc.contains g.id)).map
      (fun g => g.id)
    if more.isEmpty then acc else expandDescendants gs n (acc ++ more)

/-- All group IDs in the subtree rooted at `gid` (including `gid`). -/
def subtreeGroupIDs (v : FormatAVault) (gid : String) : List String :=
  expandDescendants v.groups v.groups.length [gid]

/-! ## Command executors

`Modelled from the spec:` formatA/commands.js is absent from the source tree;
each executor follows spec §4.4 — it checks its precondition and either fails
(`none`, a thrown `ReplayError`) or returns the updated vault.  The second
argument is the options bag holding the `shareID` (unused by the modelled
semantics).  Arity mismatches fail, per the manifest arities of spec §4.3. -/

def executeFormat (v : FormatAVault) (_opts : Option String) :
    List String → Option FormatAVault
  | [fmt] => if v.format.isSome then none else some { v with format := some fmt }
  | _ => none

def executeArchiveID (v : FormatAVault) (_opts : Option String) :
    List String → Option FormatAVault
  | [aid] => if v.id.isSome then none else some { v with id := some aid }
  | _ => none

def executeComment (v : FormatAVault) (_opts : Option String) :
    List String → Option FormatAVault
  | [_] => some v
  | _ => none

def executePad (v : FormatAVault) (_opts : Option String) :
    List String → Option FormatAVault
  | [_] => some v
  | _ => none

def executeSetArchiveAttribute (v : FormatAVault) (_opts : Option String) :
    List String → Option FormatAVault
  | [k, value] => some { v with attributes := setKV k value v.attributes }
  | _ => none

def executeDeleteArchiveAttribute (v : FormatAVault) (_opts : Option String) :
    List String → Option FormatAVault
  | [k] =>
    if (getKV k v.attributes).isSome then
      some { v with attributes := delKV k v.attributes }
    else none
  | _ => none

def executeCreateGroup (v : FormatAVault) (_opts : Option String) :
    List String → Option FormatAVault
  | [parentID, groupID] =>
    if groupExists v groupID then none
    else if parentID = "0" || groupExists v parentID then
      some { v with groups := v.groups ++ [⟨groupID, parentID, "", []⟩] }
    else none
  | _ => none

def executeTitleGroup (v : FormatAVault) (_opts : Option String) :
    List String → Option FormatAVault
  | [groupID, title] =>
    if groupExists v groupID then
      some (updateGroup v groupID (fun g => { g with title := title }))
    else none
  | _ => none

def executeMoveGroup (v : FormatAVault) (_opts : Option String) :
    List String → Option FormatAVault
  | [groupID, newParentID] =>
    if groupExists v groupID && (newParentID = "0" || groupExists v newParentID)
        && !(subtreeGroupIDs v groupID).contains newParentID then
      some (updateGroup v groupID (fun g => { g with parentID := newParentID }))
    else none
  | _ => none

def executeDeleteGroup (v : FormatAVault) (_opts : Option String) :
    List String → Option FormatAVault
  | [groupID] =>
    if groupExists v groupID then
      let doomed := subtreeGroupIDs v groupID
      some { v with
        groups := v.groups.filter (fun g => !doomed.contains g.id),
        entries := v.entries.filter (fun e => !doomed.contains e.parentID) }
    else none
  | _ => none

def executeSetGroupAttribute (v : FormatAVault) (_opts : Option String) :
    List String → Option FormatAVault
  | [groupID, k, value] =>
    if groupExists v groupID then
      some (updateGroup v groupID (fun g => { g with attributes := setKV k value g.attributes }))
    else none
  | _ => none

def executeDeleteGroupAttribute (v : FormatAVault) (_opts : Option String) :
    List String → Option FormatAVault
  | [groupID, k] =>
    match v.groups.find? (fun g => g.id = groupID) with
    | some g =>
      if (getKV k g.attributes).isSome then
        some (updateGroup v groupID (fun g2 => { g2 with attributes := delKV k g2.attributes }))
      else none
    | none => none
  | _ => none

def executeCreateEntry (v : FormatAVault) (_opts : Option String) :
    List String → Option FormatAVault
  | [groupID, entryID] =>
    if entryExists v entryID then none
    else if groupExists v groupID then
      some { v with entries := v.entries ++ [⟨entryID, groupID, [], [], []⟩] }
    else none
  | _ => none

def executeMoveEntry (v : FormatAVault) (_opts : Option String) :
    List String → Option FormatAVault
  | [entryID, groupID] =>
    if entryExists v entryID && groupExists v groupID then
      some (updateEntry v entryID (fun e => { e with parentID := groupID }))
    else none
  | _ => none

def executeDeleteEntry (v : FormatAVault) (_opts : Option String) :
    List String → Option FormatAVault
  | [entryID] =>
    if entryExists v entryID then
      some { v with entries := v.entries.filter (fun e => !(e.id = entryID)) }
    else none
  | _ => none

def executeSetEntryProperty (v : FormatAVault) (_opts : Option String) :
    List String → Option FormatAVault
  | [entryID, property, value] =>
    if entryExists v entryID then
      some (updateEntry v entryID (fun e =>
        { e with
          properties := setKV property value e.properties,
          changes := e.changes ++ [⟨property, getKV property e.properties, some value⟩] }))
    else none
  | _ => none

def executeDeleteEntryProperty (v : FormatAVault) (_opts : Option String) :
    List String → Option FormatAVault
  | [entryID, property] =>
    match v.entries.find? (fun e => e.id = entryID) with
    | some e =>
      if (getKV property e.properties).isSome then
        some (updateEntry v entryID (fun e2 =>
          { e2 with properties := delKV property e2.properties }))
      else none
    | none => none
  | _ => none

def executeSetEntryAttribute (v : FormatAVault) (_opts : Option String) :
    List String → Option FormatAVault
  | [entryID, k, value] =>
    if entryExists v entryID then
      some (updateEntry v entryID (fun e => { e with attributes := setKV k value e.attributes }))
    else none
  | _ => none

def executeDeleteEntryAttribute (v : FormatAVault) (_opts : Option String) :
    List String → Option FormatAVault
  | [entryID, k] =>
    match v.entries.find? (fun e => e.id = entryID) with
    | some e =>
      if (getKV k e.attributes).isSome then
        some (updateEntry v entryID (fun e2 => { e2 with attributes := delKV k e2.attributes }))
      else none
    | none => none
  | _ => none

/-- The executor type: `(vault, opts, args…) → vault` with failure (spec §4.4). -/
abbrev Executor := FormatAVault → Option String → List String → Option FormatAVault

/-- The `COMMANDS` opcode table from VaultFormat.ts lines 250-272 (the
`dem`/`sem` aliases route to the entry-property executors, as the source
comments state). -/
def COMMANDS : String → Option Executor
  | "aid" => some executeArchiveID
  | "cen" => some executeCreateEntry
  | "cgr" => some executeCreateGroup
  | "cmm" => some executeComment
  | "daa" => some executeDeleteArchiveAttribute
  | "dea" => some executeDeleteEntryAttribute
  | "dem" => some executeDeleteEntryProperty
  | "den" => some executeDeleteEntry
  | "dep" => some executeDeleteEntryProperty
  | "dga" => some executeDeleteGroupAttribute
  | "dgr" => some executeDeleteGroup
  | "fmt" => some executeFormat
  | "men" => some executeMoveEntry
  | "mgr" => some executeMoveGroup
  | "pad" => some executePad
  | "saa" => some executeSetArchiveAttribute
  | "sea" => some executeSetEntryAttribute
  | "sem" => some executeSetEntryProperty
  | "sep" => some executeSetEntryProperty
  | "sga" => some executeSetGroupAttribute
  | "tgr" => some executeTitleGroup
  | _ => none

/-! ## Command lexer / encoder

`Modelled from the spec:` formatA/tools.js and tools/encoding.js are absent
from the source tree.  Per spec §4.3, command arguments are
whitespace-separated; an argument matching `^[A-Za-z0-9]+$` is emitted raw,
otherwise it is wrapped in `"…"` with double quotes doubled. -/

/-- Split on JS whitespace, keeping token boundaries. -/
def splitWsAux (cur : List Char) : List Char → List (List Char)
  | [] => [cur.reverse]
  | c :: rest =>
    if isJsSpace c then cur.reverse :: splitWsAux [] rest
    else splitWsAux (c :: cur) rest

/-- Modelled from the spec: `extractCommandComponents` of formatA/tools.js —
split a command line into its whitespace-separated components (spec §4.3). -/
def extractCommandComponents (s : String) : List String :=
  ((splitWsAux [] s.data).filter (fun t => !t.isEmpty)).map String.mk

/-- Modelled from the spec: `isEncoded` of tools/encoding.js — recognises a
quote-wrapped argument (spec §4.3). -/
def isEncoded (s : String) : Bool :=
  match s.data with
  | '"' :: _ => true
  | _ => false

/-- Un-double quotes up to the closing quote. -/
def unescapeQuoted : List Char → List Char
  | '"' :: '"' :: rest => '"' :: unescapeQuoted rest
  | '"' :: _ => []
  | c :: rest => c :: unescapeQuoted rest
  | [] => []

/-- Modelled from the spec: `decodeStringValue` of tools/encoding.js —
unwrap a `"…"`-encoded argument, un-doubling embedded quotes (spec §4.3). -/
def decodeStringValue (s : String) : String :=
  match s.data with
  | '"' :: rest => String.mk (unescapeQuoted rest)
  | _ => s

/-- Double every quote character. -/
def escapeQuotes : List Char → List Char
  | '"' :: rest => '"' :: '"' :: escapeQuotes rest
  | c :: rest => c :: escapeQuotes rest
  | [] => []

/-- Modelled from the spec: argument emission (spec §4.3) — raw when
`^[A-Za-z0-9]+$`, otherwise quote-wrapped with quotes doubled. -/
def encodeArgValue (s : String) : String :=
  if !s.data.isEmpty && s.data.all isAlphaNum then s
  else "\"" ++ String.mk (escapeQuotes s.data) ++ "\""

/-- Modelled from the spec: the `COMMAND_MANIFEST` of formatA/tools.js,
collapsed to slug ↦ per-argument encode flags (spec §4.3: arities from the
opcode table; ID-valued arguments are never encoded, free-text ones are). -/
def COMMAND_MANIFEST : List (String × List Bool) :=
  [("aid", [false]), ("cen", [false, false]), ("cgr", [false, false]),
   ("cmm", [true]), ("daa", [true]), ("dea", [false, true]),
   ("dem", [false, true]), ("den", [false]), ("dep", [false, true]),
   ("dga", [false, true]), ("dgr", [false]), ("fmt", [false]),
   ("men", [false, false]), ("mgr", [false, false]), ("pad", [false]),
   ("saa", [true, true]), ("sea", [false, true, true]),
   ("sem", [false, true, true]), ("sep", [false, true, true]),
   ("sga", [false, true, true]), ("tgr", [false, true])]

/-- Decode parameters against the encode flags; running past the declared
arity throws (`args[i]` is `undefined` in the source). -/
def procParams : List Bool → List String → Except String (List String)
  | _, [] => .ok []
  | [], _ :: _ => .error "TypeError: cannot read encode of undefined"
  | flag :: flags, p :: ps =>
    let p2 := if flag && isEncoded p then decodeStringValue p else p
    (procParams flags ps).map (fun rest => p2 :: rest)

/-- `_processCommandParameters` from VaultFormat.ts lines 589-605. -/
def processCommandParameters (commandKey : String) (parameters : List String) :
    Except String (List String) :=
  match COMMAND_MANIFEST.lookup commandKey with
  | none => .error ("Cannot process command parameters: no command found for key: " ++ commandKey)
  | some flags => procParams flags parameters

/-- Join tokens with single spaces. -/
def joinSpace : List String → String
  | [] => ""
  | [a] => a
  | a :: rest => a ++ " " ++ joinSpace rest

/-- Encode each argument against its manifest flag. -/
def encodeZip : List Bool → List String → List String
  | f :: fs, a :: rest => (if f then encodeArgValue a else a) :: encodeZip fs rest
  | [], rest => rest
  | _ :: _, [] => []

/-- Modelled from the spec: `InigoCommand.generateCommand` of formatA/tools.js —
emit the slug and its arguments, encoding the flagged ones, joined by single
spaces (spec §4.3). -/
def inigoCommand (slug : String) (args : List String) : String :=
  joinSpace (slug :: encodeZip ((COMMAND_MANIFEST.lookup slug).getD []) args)

/-! ## Format engine (VaultFormatA, src/source/io/VaultFormat.ts) -/

/-- The `(source, history, dirty, _readOnly)` state owned by a VaultFormatA
instance (VaultFormat.ts lines 45-48). -/
structure FormatState where
  source : FormatAVault
  history : List String
  dirty : Bool
  readOnly : Bool
deriving DecidableEq, Repr

/-- Result of a JS call on mutable state: normal return or a thrown error,
in both cases carrying the state as it stands when control leaves the call. -/
inductive JsResult (σ : Type) where
  | ok : σ → JsResult σ
  | thrown : String → σ → JsResult σ
deriving DecidableEq, Repr

def JsResult.state {σ : Type} : JsResult σ → σ
  | .ok s => s
  | .thrown _ s => s

/-- `this.history[this.history.length - 1]` coerced to a string by the regex
test: `undefined` stringifies to `"undefined"` on the empty history. -/
def lastLineD (h : List String) : String := h.getLastD "undefined"

def shareIdOf (command : String) : Option String :=
  (shareMatchL command.data).map (fun pr => String.mk pr.1)

/-- `command.replace(SHARE_COMMAND_EXP, "")` (VaultFormat.ts line 555). -/
def currentCommandOf (command : String) : String :=
  match shareMatchL command.data with
  | some pr => String.mk pr.2
  | none => command

/-- `_executeCommand` from VaultFormat.ts lines 549-583: strip the share
prefix, validate, skip a padding command that would follow another padding
line, decode the parameters, run the executor, and only then append the
original line to the history.  Any failure is thrown with the state
untouched. -/
def executeCommand1 (s : FormatState) (command : String) : JsResult FormatState :=
  if validCommandL (currentCommandOf command).data = false then
    .thrown ("Invalid command: " ++ command) s
  else if padPrefixL command.data && padPrefixL (lastLineD s.history).data then
    .ok s
  else
    match extractCommandComponents (currentCommandOf command) with
    | [] => .thrown "Failed executing vault command" s
    | keyRaw :: params =>
      match COMMANDS (jsToLower keyRaw) with
      | none => .thrown ("Failed executing vault command: " ++ jsToLower keyRaw) s
      | some ex =>
        match processCommandParameters (jsToLower keyRaw) params with
        | .error _ => .thrown ("Failed executing vault command: " ++ jsToLower keyRaw) s
        | .ok args =>
          match ex s.source (shareIdOf command) args with
          | none => .thrown ("Failed executing vault command: " ++ jsToLower keyRaw) s
          | some src2 => .ok { s with source := src2, history := s.history ++ [command] }

/-- `commands.forEach(command => this._executeCommand(command))`: a thrown
error propagates, keeping the mutations of the earlier commands. -/
def goExec : FormatState → List String → JsResult FormatState
  | s, [] => .ok s
  | s, c :: rest =>
    match executeCommand1 s c with
    | .ok s2 => goExec s2 rest
    | .thrown m s2 => .thrown m s2

/-- `execute` from VaultFormat.ts lines 441-453.  `padNonce` stands for the
fresh UUID drawn by `_pad`'s `Inigo.generatePaddingCommand()`. -/
def jsExecute (s : FormatState) (commands : List String) (padNonce : String) :
    JsResult FormatState :=
  if s.readOnly then .thrown "Format is in read-only mode" s
  else
    match goExec s commands with
    | .thrown m s2 => .thrown m s2
    | .ok s2 =>
      let lastCommand := commands.getLastD "undefined"
      if padPrefixL lastCommand.data then .ok { s2 with dirty := true }
      else
        match executeCommand1 s2 (inigoCommand "pad" [padNonce]) with
        | .thrown m s3 => .thrown m s3
        | .ok s3 => .ok { s3 with dirty := true }

/-- Modelled from the spec: `getFormat` of formatA/signing.js (absent from the
source tree); spec §3: "formatTag: a small integer written by a fmt command". -/
def formatToken : String := "1"

/-- `initialise` from VaultFormat.ts lines 467-474: executes the `fmt`
command, then `generateID` executes `aid <uuid>`.  `uuid` stands for the
`generateUUID()` draw, `nonce1`/`nonce2` for the padding draws of the two
`execute` calls. -/
def initialise (s : FormatState) (uuid nonce1 nonce2 : String) : JsResult FormatState :=
  match jsExecute s [inigoCommand "fmt" [formatToken]] nonce1 with
  | .thrown m s2 => .thrown m s2
  | .ok s2 => jsExecute s2 [inigoCommand "aid" [uuid]] nonce2

/-- A fresh, empty VaultFormatA instance. -/
def freshState : FormatState := ⟨emptyVault, [], false, false⟩

/-- A sequence of `execute` calls, each with its padding draw; a thrown call
leaves its partial mutations behind, as in the source. -/
def runBatches : FormatState → List (List String × String) → FormatState
  | s, [] => s
  | s, (cmds, nonce) :: rest => runBatches (jsExecute s cmds nonce).state rest

/-- No two adjacent history lines both match `/^pad\s/i`. -/
def noPadPad : List String → Bool
  | a :: b :: rest => !(padPrefixL a.data && padPrefixL b.data) && noPadPad (b :: rest)
  | _ => true

/-! ## C2: per-command atomicity of execute -/

/-- C2: For every command passed to `execute`, execution of that single
command is atomic: whenever `_executeCommand` throws — invalid command text,
unknown opcode, parameter-decoding failure, or executor (replay) failure —
the command is not appended to the history and the vault tree carries no
partial mutation from that command: the state at the throw equals the state
before the call. -/
theorem executeCommand_atomic (s : FormatState) (command m : String) (s' : FormatState)
    (h : executeCommand1 s command = JsResult.thrown m s') : s' = s := by
  unfold executeCommand1 at h
  repeat' split at h
  all_goals simp_all

/-- Witness for C2 at a concrete throwing input: the opcode `zzz` is unknown,
the executor lookup fails, and the state is untouched. -/
theorem executeCommand_atomic_witness : freshState = freshState :=
  executeCommand_atomic freshState "zzz 1" "Failed executing vault command: zzz"
    freshState (by decide)

/-! ## C6: read-only mode freezes execute -/

/-- C6: Whenever the format is in read-only mode, every call to `execute`
(and hence every mutator that delegates to it) throws the read-only error
before lexing or executing anything, leaving the history and the vault tree
unchanged. -/
theorem execute_readOnly (s : FormatState) (cmds : List String) (nonce : String)
    (h : s.readOnly = true) :
    jsExecute s cmds nonce = JsResult.thrown "Format is in read-only mode" s := by
  unfold jsExecute
  simp [h]

/-- Witness for C6: a read-only instance rejects a `cgr` batch unchanged. -/
theorem execute_readOnly_witness :
    jsExecute ⟨emptyVault, [], false, true⟩ ["cgr 0 a"] "n" =
      JsResult.thrown "Format is in read-only mode" ⟨emptyVault, [], false, true⟩ :=
  execute_readOnly ⟨emptyVault, [], false, true⟩ ["cgr 0 a"] "n" rfl

/-! ## C7: padding lines are never adjacent -/

lemma lastLineD_cons_cons (a b : String) (rest : List String) :
    lastLineD (a :: b :: rest) = lastLineD (b :: rest) := by
  simp [lastLineD, List.getLastD_cons]

lemma noPadPad_append : ∀ (h : List String) (c : String), noPadPad h = true →
    (padPrefixL c.data = false ∨ padPrefixL (lastLineD h).data = false) →
    noPadPad (h ++ [c]) = true
  | [], c, _, _ => by simp [noPadPad]
  | [a], c, _, hc => by
    simp only [lastLineD, List.getLastD_cons, List.getLastD_nil] at hc
    simp only [List.cons_append, List.nil_append, noPadPad, Bool.and_eq_true,
      Bool.not_eq_true']
    rcases hc with h1 | h1 <;> simp [h1]
  | a :: b :: t, c, hh, hc => by
    simp only [noPadPad, Bool.and_eq_true] at hh
    simp only [List.cons_append, noPadPad, Bool.and_eq_true]
    refine ⟨hh.1, ?_⟩
    have := noPadPad_append (b :: t) c hh.2 (by rwa [lastLineD_cons_cons] at hc)
    simpa using this

/-- `_executeCommand` preserves the no-adjacent-pads invariant: a line is
appended only when it is not a padding line following another padding line
(the skip at VaultFormat.ts lines 560-563). -/
lemma executeCommand1_noPadPad (s : FormatState) (c : String)
    (hh : noPadPad s.history = true) :
    noPadPad ((executeCommand1 s c).state).history = true := by
  unfold executeCommand1
  split
  · simpa [JsResult.state]
  next hguard =>
    split
    · simpa [JsResult.state]
    next hpads =>
      have hside : padPrefixL c.data = false ∨ padPrefixL (lastLineD s.history).data = false := by
        by_cases h1 : padPrefixL c.data = true
        · right
          by_cases h2 : padPrefixL (lastLineD s.history).data = true
          · exact absurd (by simp [h1, h2]) hpads
          · simpa using h2
        · left; simpa using h1
      split
      · simpa [JsResult.state]
      split
      · simpa [JsResult.state]
      split
      · simpa [JsResult.state]
      split
      · simpa [JsResult.state]
      · simpa [JsResult.state] using noPadPad_append s.history c hh hside

lemma goExec_noPadPad : ∀ (cmds : List String) (s : FormatState),
    noPadPad s.history = true → noPadPad ((goExec s cmds).state).history = true
  | [], s, hh => by simpa [goExec, JsResult.state]
  | c :: rest, s, hh => by
    unfold goExec
    have h1 := executeCommand1_noPadPad s c hh
    cases hx : executeCommand1 s c with
    | ok s2 =>
      rw [hx] at h1
      simpa using goExec_noPadPad rest s2 (by simpa [JsResult.state] using h1)
    | thrown m s2 =>
      rw [hx] at h1
      simpa [JsResult.state] using h1

lemma jsExecute_noPadPad (s : FormatState) (cmds : List String) (nonce : String)
    (hh : noPadPad s.history = true) :
    noPadPad ((jsExecute s cmds nonce).state).history = true := by
  unfold jsExecute
  split
  · simpa [JsResult.state]
  have h1 := goExec_noPadPad cmds s hh
  cases hx : goExec s cmds with
  | thrown m s2 =>
    rw [hx] at h1
    simpa [JsResult.state] using h1
  | ok s2 =>
    rw [hx] at h1
    simp only [JsResult.state] at h1
    simp only []
    split
    · simpa [JsResult.state] using h1
    · have h2 := executeCommand1_noPadPad s2 (inigoCommand "pad" [nonce]) h1
      cases hy : executeCommand1 s2 (inigoCommand "pad" [nonce]) with
      | thrown m s3 =>
        rw [hy] at h2
        simpa [JsResult.state] using h2
      | ok s3 =>
        rw [hy] at h2
        simpa [JsResult.state] using h2

lemma runBatches_noPadPad : ∀ (batches : List (List String × String)) (s : FormatState),
    noPadPad s.history = true → noPadPad (runBatches s batches).history = true
  | [], s, hh => hh
  | (cmds, nonce) :: rest, s, hh =>
    runBatches_noPadPad rest ((jsExecute s cmds nonce).state)
      (jsExecute_noPadPad s cmds nonce hh)

/-- C7: In every history produced by a sequence of `execute` calls on a fresh
format — whether the calls succeed or throw — two padding (`pad`) lines never
appear consecutively. -/
theorem execute_no_consecutive_pads (batches : List (List String × String)) :
    noPadPad (runBatches freshState batches).history = true :=
  runBatches_noPadPad batches freshState rfl

/-! ## C3: the history produced by initialise -/

/-- Split on `'\n'` (JS `historyString.split("\n")`; the empty string yields
one empty piece, as in JS). -/
def splitOnNl : List Char → List (List Char)
  | [] => [[]]
  | c :: rest =>
    if c = '\n' then [] :: splitOnNl rest
    else
      match splitOnNl rest with
      | t :: ts => (c :: t) :: ts
      | [] => [[c]]

/-- Join with `'\n'` (JS `historyArray.join("\n")`). -/
def joinNl : List (List Char) → List Char
  | [] => []
  | [l] => l
  | l :: rest => l ++ '\n' :: joinNl rest

/-- `historyArrayToString` from VaultFormat.ts lines 283-285. -/
def historyArrayToString (historyArray : List String) : String :=
  String.mk (joinNl (historyArray.map String.data))

/-- `historyStringToArray` from VaultFormat.ts lines 293-295. -/
def historyStringToArray (historyString : String) : List String :=
  (splitOnNl historyString.data).map String.mk

lemma splitOnNl_no_nl (l : List Char) (h : '\n' ∉ l) : splitOnNl l = [l] := by
  induction l with
  | nil => rfl
  | cons c rest ih =>
    have hc : ¬c = '\n' := fun hx => h (hx ▸ List.mem_cons_self c rest)
    have hr : '\n' ∉ rest := fun hx => h (List.mem_cons_of_mem c hx)
    simp [splitOnNl, hc, ih hr]

lemma splitOnNl_append_nl (l t : List Char) (h : '\n' ∉ l) :
    splitOnNl (l ++ '\n' :: t) = l :: splitOnNl t := by
  induction l with
  | nil => simp [splitOnNl]
  | cons c rest ih =>
    have hc : ¬c = '\n' := fun hx => h (hx ▸ List.mem_cons_self c rest)
    have hr : '\n' ∉ rest := fun hx => h (List.mem_cons_of_mem c hx)
    have h3 := ih hr
    simp only [List.cons_append, splitOnNl, hc, if_false]
    rw [show rest.append ('\n' :: t) = rest ++ '\n' :: t from rfl, h3]

lemma splitOnNl_joinNl : ∀ ls : List (List Char), ls ≠ [] → (∀ l ∈ ls, '\n' ∉ l) →
    splitOnNl (joinNl ls) = ls
  | [], h, _ => absurd rfl h
  | [l], _, hnl => by
    simp only [joinNl]
    exact splitOnNl_no_nl l (hnl l (List.mem_singleton_self l))
  | l :: m :: rest, _, hnl => by
    have h1 : '\n' ∉ l := hnl l (List.mem_cons_self l (m :: rest))
    have h2 : ∀ x ∈ m :: rest, '\n' ∉ x := fun x hx => hnl x (List.mem_cons_of_mem l hx)
    show splitOnNl (l ++ '\n' :: joinNl (m :: rest)) = l :: m :: rest
    rw [splitOnNl_append_nl l _ h1, splitOnNl_joinNl (m :: rest) (by simp) h2]

/-- Serialize/deserialize round trip at the history-string level: for a
nonempty history whose lines carry no newline, `historyStringToArray`
inverts `historyArrayToString`. -/
lemma history_string_roundTrip (hs : List String) (hne : hs ≠ [])
    (hnl : ∀ l ∈ hs, '\n' ∉ l.data) :
    historyStringToArray (historyArrayToString hs) = hs := by
  unfold historyStringToArray historyArrayToString
  rw [show (String.mk (joinNl (hs.map String.data))).data = joinNl (hs.map String.data) from rfl]
  rw [splitOnNl_joinNl (hs.map String.data) (by simpa using hne)
    (by intro l hl; rcases List.mem_map.mp hl with ⟨x, hx, rfl⟩; exact hnl x hx)]
  rw [List.map_map]
  have : (String.mk ∘ String.data) = id := by
    funext x; cases x; rfl
  simp [this]

/-- Characters that `generateUUID` can draw: lowercase hex digits and `-`. -/
def uuidChar (c : Char) : Bool := isLowerHex c || c.toNat = 45

/-- A nonempty string over the UUID alphabet. -/
abbrev uuidish (s : String) : Prop := s.data ≠ [] ∧ ∀ c ∈ s.data, uuidChar c = true

lemma uuidChar_not_space {c : Char} (h : uuidChar c = true) : isJsSpace c = false := by
  simp only [uuidChar, isLowerHex, Bool.or_eq_true, Bool.and_eq_true,
    decide_eq_true_eq] at h
  simp only [isJsSpace, Bool.or_eq_false_iff, Bool.and_eq_false_iff,
    decide_eq_false_iff_not]
  omega

lemma uuidChar_not_term {c : Char} (h : uuidChar c = true) : isLineTerminator c = false := by
  simp only [uuidChar, isLowerHex, Bool.or_eq_true, Bool.and_eq_true,
    decide_eq_true_eq] at h
  simp only [isLineTerminator, Bool.or_eq_false_iff, decide_eq_false_iff_not]
  omega

lemma uuidChar_not_nl {c : Char} (h : uuidChar c = true) : ¬c = '\n' := by
  intro hx
  subst hx
  simp [uuidChar, isLowerHex] at h

lemma splitWsAux_nospace (u : List Char) (h : ∀ c ∈ u, isJsSpace c = false) :
    ∀ acc, splitWsAux acc u = [acc.reverse ++ u] := by
  induction u with
  | nil => intro acc; simp [splitWsAux]
  | cons c rest ih =>
    intro acc
    have hc : isJsSpace c = false := h c (List.mem_cons_self c rest)
    have hr : ∀ x ∈ rest, isJsSpace x = false := fun x hx => h x (List.mem_cons_of_mem c hx)
    simp [splitWsAux, hc, ih hr]

/-- Components of a plain three-letter command with one whitespace-free
argument. -/
lemma extract_plain1 (c1 c2 c3 : Char) (u : List Char)
    (h1 : isJsSpace c1 = false) (h2 : isJsSpace c2 = false) (h3 : isJsSpace c3 = false)
    (hu : ∀ c ∈ u, isJsSpace c = false) (hne : u ≠ []) :
    extractCommandComponents (String.mk (c1 :: c2 :: c3 :: ' ' :: u)) =
      [String.mk [c1, c2, c3], String.mk u] := by
  unfold extractCommandComponents
  rw [show (String.mk (c1 :: c2 :: c3 :: ' ' :: u)).data = c1 :: c2 :: c3 :: ' ' :: u from rfl]
  rw [show splitWsAux [] (c1 :: c2 :: c3 :: ' ' :: u) =
      splitWsAux [c1] (c2 :: c3 :: ' ' :: u) by simp [splitWsAux, h1]]
  rw [show splitWsAux [c1] (c2 :: c3 :: ' ' :: u) =
      splitWsAux [c2, c1] (c3 :: ' ' :: u) by simp [splitWsAux, h2]]
  rw [show splitWsAux [c2, c1] (c3 :: ' ' :: u) =
      splitWsAux [c3, c2, c1] (' ' :: u) by simp [splitWsAux, h3]]
  rw [show splitWsAux [c3, c2, c1] (' ' :: u) =
      [c3, c2, c1].reverse :: splitWsAux [] u by simp [splitWsAux, isJsSpace]]
  rw [splitWsAux_nospace u hu []]
  simp [hne]

lemma validCommandL_plain1 (c1 c2 c3 : Char) (u : List Char)
    (h1 : isLowerAZ c1 = true) (h2 : isLowerAZ c2 = true) (h3 : isLowerAZ c3 = true)
    (hu : ∀ c ∈ u, isLineTerminator c = false) (hne : u ≠ []) :
    validCommandL (c1 :: c2 :: c3 :: ' ' :: u) = true := by
  have hsp : isJsSpace ' ' = true := by decide
  simp only [validCommandL, h1, h2, h3, hsp, Bool.true_and, Bool.and_eq_true]
  constructor
  · simpa using hne
  · rw [List.all_eq_true]
    intro c hc
    simp [hu c hc]

lemma mk_data_eq (s : String) : String.mk s.data = s := by
  cases s
  rfl

lemma lastLineD_concat (h : List String) (a : String) : lastLineD (h ++ [a]) = a := by
  simp [lastLineD, List.getLastD_eq_getLast?, List.getLast?_concat]

lemma shareMatchL_not_dollar {c : Char} (cs : List Char) (h : ¬c = '$') :
    shareMatchL (c :: cs) = none := by
  simp [shareMatchL, h]

/-- `_executeCommand` on a padding command `pad <nonce>` whose predecessor is
not itself a padding line: the line is appended and the tree untouched. -/
lemma exec1_pad (s : FormatState) (n : String) (hn : uuidish n)
    (hlast : padPrefixL (lastLineD s.history).data = false) :
    executeCommand1 s ("pad " ++ n) =
      JsResult.ok { s with history := s.history ++ ["pad " ++ n] } := by
  obtain ⟨hne, hall⟩ := hn
  have hdata : ("pad " ++ n).data = 'p' :: 'a' :: 'd' :: ' ' :: n.data := rfl
  have hshare : shareMatchL ("pad " ++ n).data = none := by
    rw [hdata]; exact shareMatchL_not_dollar _ (by decide)
  have hcur : currentCommandOf ("pad " ++ n) = "pad " ++ n := by
    unfold currentCommandOf; rw [hshare]
  have hvalid : validCommandL ("pad " ++ n).data = true := by
    rw [hdata]
    exact validCommandL_plain1 'p' 'a' 'd' n.data (by decide) (by decide) (by decide)
      (fun c hc => uuidChar_not_term (hall c hc)) hne
  have hpadp : padPrefixL ("pad " ++ n).data = true := by
    rw [hdata]; simp [padPrefixL, isJsSpace]
  have hextract : extractCommandComponents ("pad " ++ n) = ["pad", n] := by
    rw [← mk_data_eq ("pad " ++ n), hdata]
    rw [extract_plain1 'p' 'a' 'd' n.data (by decide) (by decide) (by decide)
      (fun c hc => uuidChar_not_space (hall c hc)) hne]
  have h1 : ¬(validCommandL (currentCommandOf ("pad " ++ n)).data = false) := by
    rw [hcur, hvalid]; simp
  have h2 : ¬((padPrefixL ("pad " ++ n).data &&
      padPrefixL (lastLineD s.history).data) = true) := by
    rw [hpadp, hlast]; simp
  unfold executeCommand1
  rw [if_neg h1, if_neg h2, hcur, hextract]
  rfl

/-- `_executeCommand` on the command `aid <uuid>` of a vault with no ID yet:
the ID is set and the line appended. -/
lemma exec1_aid (s : FormatState) (u : String) (hu : uuidish u)
    (hid : s.source.id = none) :
    executeCommand1 s ("aid " ++ u) =
      JsResult.ok { s with source := { s.source with id := some u },
                           history := s.history ++ ["aid " ++ u] } := by
  obtain ⟨hne, hall⟩ := hu
  have hdata : ("aid " ++ u).data = 'a' :: 'i' :: 'd' :: ' ' :: u.data := rfl
  have hshare : shareMatchL ("aid " ++ u).data = none := by
    rw [hdata]; exact shareMatchL_not_dollar _ (by decide)
  have hcur : currentCommandOf ("aid " ++ u) = "aid " ++ u := by
    unfold currentCommandOf; rw [hshare]
  have hvalid : validCommandL ("aid " ++ u).data = true := by
    rw [hdata]
    exact validCommandL_plain1 'a' 'i' 'd' u.data (by decide) (by decide) (by decide)
      (fun c hc => uuidChar_not_term (hall c hc)) hne
  have hpadp : padPrefixL ("aid " ++ u).data = false := by
    rw [hdata]; simp [padPrefixL]
  have hextract : extractCommandComponents ("aid " ++ u) = ["aid", u] := by
    rw [← mk_data_eq ("aid " ++ u), hdata]
    rw [extract_plain1 'a' 'i' 'd' u.data (by decide) (by decide) (by decide)
      (fun c hc => uuidChar_not_space (hall c hc)) hne]
  have hexec : executeArchiveID s.source (shareIdOf ("aid " ++ u)) [u] =
      some { s.source with id := some u } := by
    unfold executeArchiveID
    rw [hid]
    rfl
  have h1 : ¬(validCommandL (currentCommandOf ("aid " ++ u)).data = false) := by
    rw [hcur, hvalid]; simp
  have h2 : ¬((padPrefixL ("aid " ++ u).data &&
      padPrefixL (lastLineD s.history).data) = true) := by
    rw [hpadp]; simp
  unfold executeCommand1
  rw [if_neg h1, if_neg h2, hcur, hextract]
  simp only [show jsToLower "aid" = "aid" from rfl,
    show COMMANDS "aid" = some executeArchiveID from rfl,
    show processCommandParameters "aid" [u] = Except.ok [u] from rfl, hexec]

lemma inigo_pad (n : String) : inigoCommand "pad" [n] = "pad " ++ n := rfl

lemma inigo_aid (u : String) : inigoCommand "aid" [u] = "aid " ++ u := rfl

lemma padPrefixL_aid (u : String) : padPrefixL ("aid " ++ u).data = false := by
  rw [show ("aid " ++ u).data = 'a' :: 'i' :: 'd' :: ' ' :: u.data from rfl]
  simp [padPrefixL]

/-- A single-command `execute` call: run the command, then append a padding
line, then mark dirty. -/
lemma jsExecute_single (s : FormatState) (c : String) (s2 : FormatState) (nonce : String)
    (hro : s.readOnly = false) (hc : executeCommand1 s c = JsResult.ok s2)
    (hcp : padPrefixL c.data = false) (hn : uuidish nonce)
    (hlast2 : padPrefixL (lastLineD s2.history).data = false) :
    jsExecute s [c] nonce =
      JsResult.ok ⟨s2.source, s2.history ++ ["pad " ++ nonce], true, s2.readOnly⟩ := by
  unfold jsExecute
  rw [hro]
  have hgo : goExec s [c] = JsResult.ok s2 := by
    simp only [goExec, hc]
  simp only [Bool.false_eq_true, if_false, hgo, List.getLastD_cons, List.getLastD_nil,
    hcp, inigo_pad nonce, exec1_pad s2 nonce hn hlast2]

/-- C3 counterexample: on a fresh format, `initialise` (with `generateUUID`
drawing `u1` and the two padding draws `n1`, `n2`) leaves a history of length
4 — `fmt`, `pad`, `aid`, `pad` — not 2, and its second line is a `pad` line,
refuting "history length exactly 2 with no pad lines, second line starts
with `aid `". -/
theorem initialise_counterexample :
    (initialise freshState "u1" "n1" "n2").state.history =
      ["fmt 1", "pad n1", "aid u1", "pad n2"] ∧
    ((initialise freshState "u1" "n1" "n2").state.history.length = 2 → False) := by
  constructor
  · rfl
  · intro h
    rw [show (initialise freshState "u1" "n1" "n2").state.history =
      ["fmt 1", "pad n1", "aid u1", "pad n2"] from rfl] at h
    simp at h

/-- Evaluation of `initialise` on a fresh format, for any UUID draw and
padding draws over the UUID alphabet. -/
lemma initialise_eval (u n1 n2 : String) (hu : uuidish u) (h1 : uuidish n1)
    (h2 : uuidish n2) :
    initialise freshState u n1 n2 =
      JsResult.ok ⟨⟨some u, some "1", [], [], []⟩,
        ["fmt 1", "pad " ++ n1, "aid " ++ u, "pad " ++ n2], true, false⟩ := by
  unfold initialise
  rw [show inigoCommand "fmt" [formatToken] = "fmt 1" from rfl, inigo_aid u]
  rw [jsExecute_single freshState "fmt 1"
    ⟨⟨none, some "1", [], [], []⟩, ["fmt 1"], false, false⟩ n1 rfl rfl (by decide) h1
    (by decide)]
  have hmid : executeCommand1
      ⟨⟨none, some "1", [], [], []⟩, ["fmt 1", "pad " ++ n1], true, false⟩ ("aid " ++ u) =
      JsResult.ok ⟨⟨some u, some "1", [], [], []⟩,
        ["fmt 1", "pad " ++ n1] ++ ["aid " ++ u], true, false⟩ :=
    exec1_aid ⟨⟨none, some "1", [], [], []⟩, ["fmt 1", "pad " ++ n1], true, false⟩ u hu rfl
  rw [show (JsResult.ok (⟨⟨none, some "1", [], [], []⟩,
      ["fmt 1"] ++ ["pad " ++ n1], true, false⟩ : FormatState) :
      JsResult FormatState) =
    JsResult.ok ⟨⟨none, some "1", [], [], []⟩, ["fmt 1", "pad " ++ n1], true, false⟩ from rfl]
  show jsExecute ⟨⟨none, some "1", [], [], []⟩, ["fmt 1", "pad " ++ n1], true, false⟩
      ["aid " ++ u] n2 = _
  rw [jsExecute_single
    ⟨⟨none, some "1", [], [], []⟩, ["fmt 1", "pad " ++ n1], true, false⟩ ("aid " ++ u)
    ⟨⟨some u, some "1", [], [], []⟩, ["fmt 1", "pad " ++ n1] ++ ["aid " ++ u], true, false⟩
    n2 rfl hmid (padPrefixL_aid u) h2
    (by rw [lastLineD_concat]; exact padPrefixL_aid u)]
  rfl

/-- C3 (amended): after `initialise()` on a fresh (empty) format, the history
has length exactly 4 — not 2 — because `execute` appends a padding line after
each of the two commands: the lines are `fmt …`, a `pad` line, `aid <uuid>`,
a `pad` line; the non-pad lines are exactly the `fmt` line followed by the
`aid` line, and this shape survives a serialize/deserialize round trip of the
history string (`join("\n")` / `split("\n")`). -/
theorem initialise_history_shape (u n1 n2 : String) (hu : uuidish u)
    (h1 : uuidish n1) (h2 : uuidish n2) :
    (initialise freshState u n1 n2).state.history =
      ["fmt 1", "pad " ++ n1, "aid " ++ u, "pad " ++ n2] ∧
    (initialise freshState u n1 n2).state.history.length = 4 ∧
    ((initialise freshState u n1 n2).state.history.filter
      (fun l => !padPrefixL l.data)) = ["fmt 1", "aid " ++ u] ∧
    historyStringToArray (historyArrayToString
      (initialise freshState u n1 n2).state.history) =
      (initialise freshState u n1 n2).state.history := by
  have he : (initialise freshState u n1 n2).state.history =
      ["fmt 1", "pad " ++ n1, "aid " ++ u, "pad " ++ n2] := by
    rw [initialise_eval u n1 n2 hu h1 h2]
    rfl
  have hpadn1 : padPrefixL ("pad " ++ n1).data = true := by
    rw [show ("pad " ++ n1).data = 'p' :: 'a' :: 'd' :: ' ' :: n1.data from rfl]
    simp [padPrefixL, isJsSpace]
  have hpadn2 : padPrefixL ("pad " ++ n2).data = true := by
    rw [show ("pad " ++ n2).data = 'p' :: 'a' :: 'd' :: ' ' :: n2.data from rfl]
    simp [padPrefixL, isJsSpace]
  refine ⟨he, ?_, ?_, ?_⟩
  · rw [he]; rfl
  · rw [he]
    simp only [List.filter, hpadn1, hpadn2, padPrefixL_aid u,
      show padPrefixL ("fmt 1").data = false from rfl, Bool.not_true, Bool.not_false]
  · rw [he]
    refine history_string_roundTrip _ (by simp) ?_
    intro l hl
    have hnl : ∀ m : String, uuidish m → '\n' ∉ ("pad " ++ m).data := by
      intro m hm hmem
      rw [show ("pad " ++ m).data = 'p' :: 'a' :: 'd' :: ' ' :: m.data from rfl] at hmem
      simp only [List.mem_cons] at hmem
      rcases hmem with h | h | h | h | h
      · exact absurd h (by decide)
      · exact absurd h (by decide)
      · exact absurd h (by decide)
      · exact absurd h (by decide)
      · exact uuidChar_not_nl (hm.2 '\n' h) rfl
    have hnl2 : '\n' ∉ ("aid " ++ u).data := by
      intro hmem
      rw [show ("aid " ++ u).data = 'a' :: 'i' :: 'd' :: ' ' :: u.data from rfl] at hmem
      simp only [List.mem_cons] at hmem
      rcases hmem with h | h | h | h | h
      · exact absurd h (by decide)
      · exact absurd h (by decide)
      · exact absurd h (by decide)
      · exact absurd h (by decide)
      · exact uuidChar_not_nl (hu.2 '\n' h) rfl
    simp only [List.mem_cons, List.not_mem_nil, or_false] at hl
    rcases hl with rfl | rfl | rfl | rfl
    · decide
    · exact hnl n1 h1
    · exact hnl2
    · exact hnl n2 h2

/-- Witness for the amended C3: a concrete UUID draw and padding draws. -/
theorem initialise_history_shape_witness :
    (initialise freshState "ab12" "cd34" "ef56").state.history =
      ["fmt 1", "pad " ++ "cd34", "aid " ++ "ab12", "pad " ++ "ef56"] :=
  (initialise_history_shape "ab12" "cd34" "ef56" (by decide) (by decide) (by decide)).1


/-! ## C4: prepareHistoryForMerge -/

/-- Modelled from the spec: the destructive opcodes of the §4.3 manifest —
all seven delete opcodes, `dem` included (the manifest row "`dep` / `dem` —
delete entry property — destructive", and the source's `COMMANDS` table
comment "Meta deprecated, deletes property instead"). -/
def destructiveSlugs : List String := ["dgr", "dga", "den", "dep", "dem", "dea", "daa"]

/-- First three characters of the share-stripped line: the opcode slug
(share prefixes are extracted before opcode matching, spec §4.3). -/
def lineSlug (line : String) : String :=
  String.mk ((currentCommandOf line).data.take 3)

/-- Whether a history line is a destructive command line. -/
def isDestructiveLine (line : String) : Bool :=
  destructiveSlugs.contains (lineSlug line)

/-- Modelled from the spec: `stripDestructiveCommands` of formatA/tools.js —
drop every line whose opcode is destructive, keep the rest in order
(spec §4.3 table and §4.7 step 3). -/
def stripDestructiveCommands (history : List String) : List String :=
  history.filter (fun line => !isDestructiveLine line)

/-- `prepareHistoryForMerge` from VaultFormat.ts lines 361-363. -/
def prepareHistoryForMerge (history : List String) : List String :=
  stripDestructiveCommands history

/-- The six opcodes the claim says are removed (no `dem`). -/
def claimedDestructiveSlugs : List String := ["dgr", "den", "dep", "dea", "dga", "daa"]

/-- C4 counterexample: `prepareHistoryForMerge` also removes a `dem` line
(the deprecated delete-entry-meta opcode), whose opcode is not among the six
opcodes the claim enumerates — so the claim's "removes exactly the lines with
opcodes dgr, den, dep, dea, dga, daa" fails. -/
theorem prepareHistoryForMerge_counterexample :
    prepareHistoryForMerge ["dem a b"] = [] ∧
    ¬(lineSlug "dem a b" ∈ claimedDestructiveSlugs) := by
  constructor
  · rfl
  · intro h
    simp [lineSlug, claimedDestructiveSlugs, currentCommandOf, shareMatchL] at h

/-- C4 (amended): `prepareHistoryForMerge` removes exactly the destructive
command lines — opcodes `dgr`, `den`, `dep`, `dem` (the deprecated alias of
`dep`), `dea`, `dga`, `daa` — keeps every create, set and move command, and
preserves the relative order of the kept lines (the result is a sublist of
the input). -/
theorem prepareHistoryForMerge_spec (h : List String) :
    List.Sublist (prepareHistoryForMerge h) h ∧
    (∀ l, l ∈ prepareHistoryForMerge h ↔ l ∈ h ∧ isDestructiveLine l = false) ∧
    (∀ l ∈ h, lineSlug l ∈
        (["cgr", "cen", "tgr", "sga", "sea", "sep", "sem", "saa", "mgr", "men"] :
          List String) →
      l ∈ prepareHistoryForMerge h) := by
  refine ⟨List.filter_sublist h, ?_, ?_⟩
  · intro l
    unfold prepareHistoryForMerge stripDestructiveCommands
    rw [List.mem_filter]
    simp
  · intro l hl hk
    have hx : isDestructiveLine l = false := by
      simp only [List.mem_cons, List.not_mem_nil, or_false] at hk
      unfold isDestructiveLine
      rcases hk with e | e | e | e | e | e | e | e | e | e <;> rw [e] <;> rfl
    unfold prepareHistoryForMerge stripDestructiveCommands
    rw [List.mem_filter]
    exact ⟨hl, by simp [hx]⟩

/-- Witness for the amended C4: a create line survives a merge-preparation
that drops a `dem` line. -/
theorem prepareHistoryForMerge_spec_witness :
    "cgr 0 a" ∈ prepareHistoryForMerge ["cgr 0 a", "dem x y"] :=
  (prepareHistoryForMerge_spec ["cgr 0 a", "dem x y"]).2.2 "cgr 0 a" (by decide) (by decide)

/-! ## Attachment manager (src/source/attachments/AttachmentManager.js)

Attribute values under `BC_ATTACHMENT:<id>` hold `JSON.stringify(payload)` in
the source; the embedding stores the details record itself, modelling the
stringify/parse pair as the identity.  Encryption is the external
`encryptAttachment` capability, so the encrypted size enters as an input,
exactly the quantity the source measures with `getBufferSize`. -/

structure AttachmentDetails where
  id : String
  name : String
  type : String
  sizeOriginal : Int
  sizeEncrypted : Int
  created : String
  updated : String
deriving DecidableEq, Repr

/-- The entry as the attachment manager sees it: its attribute map. -/
structure AMEntry where
  attributes : List (String × AttachmentDetails)
deriving DecidableEq, Repr

/-- `Entry.Attributes.AttachmentPrefix + attachmentID`
(AttachmentManager.js line 132). -/
def attachmentAttrKey (attachmentID : String) : String :=
  "BC_ATTACHMENT:" ++ attachmentID

def lookupAttr (k : String) : List (String × AttachmentDetails) → Option AttachmentDetails
  | [] => none
  | (k', v) :: rest => if k' = k then some v else lookupAttr k rest

def setAttr (k : String) (v : AttachmentDetails) :
    List (String × AttachmentDetails) → List (String × AttachmentDetails)
  | [] => [(k, v)]
  | (k', v') :: rest => if k' = k then (k, v) :: rest else (k', v') :: setAttr k v rest

/-- `getAttachmentDetails` from AttachmentManager.js lines 70-76: read the
`BC_ATTACHMENT:<id>` attribute, `null` when absent. -/
def getAttachmentDetails (entry : AMEntry) (attachmentID : String) : Option AttachmentDetails :=
  lookupAttr (attachmentAttrKey attachmentID) entry.attributes

/-- The net storage increase computed at AttachmentManager.js lines 142-144:
`existingDetails ? Math.max(0, encryptedSize - existingDetails.sizeEncrypted)
: encryptedSize`. -/
def sizeIncreaseFor (entry : AMEntry) (attachmentID : String) (encryptedSize : Int) : Int :=
  match getAttachmentDetails entry attachmentID with
  | some d => max 0 (encryptedSize - d.sizeEncrypted)
  | none => encryptedSize

def outOfSpaceMsg (needed avail : Int) : String :=
  "Not enough space to update attachment: needed = " ++ toString needed ++
    " B, available = " ++ toString avail ++ " B"

/-- `setAttachment` from AttachmentManager.js lines 126-171: support check,
name/type check, existing-details lookup, quota check against
`getAvailableStorage()` (`none` = `null` = unknown/unlimited), then the
payload — with `created` and `updated` both set to the supplied timestamp —
is written to the datasource and onto the entry attribute. -/
def setAttachment (supportsAtt : Bool) (entry : AMEntry) (attachmentID : String)
    (encryptedSize originalSize : Int) (name mimeType : String)
    (spaceAvailable : Option Int) (now : String) : JsResult AMEntry :=
  if supportsAtt = false then .thrown "Attachments not supported on source" entry
  else if name = "" || mimeType = "" then
    .thrown ("Attachment properties required: name/type => " ++ name ++ "/" ++ mimeType) entry
  else
    match spaceAvailable with
    | some avail =>
      if sizeIncreaseFor entry attachmentID encryptedSize > avail then
        .thrown (outOfSpaceMsg (sizeIncreaseFor entry attachmentID encryptedSize) avail) entry
      else
        .ok ⟨setAttr (attachmentAttrKey attachmentID)
          ⟨attachmentID, name, mimeType, originalSize, encryptedSize, now, now⟩
          entry.attributes⟩
    | none =>
      .ok ⟨setAttr (attachmentAttrKey attachmentID)
        ⟨attachmentID, name, mimeType, originalSize, encryptedSize, now, now⟩
        entry.attributes⟩

/-- C5: whenever the datasource reports non-null available storage and the
net encrypted-size increase (full encrypted size for a new attachment, the
positive part of the difference for an update) exceeds it, `setAttachment`
throws the out-of-space error and the entry — in particular its
`BC_ATTACHMENT:<id>` attribute — is left unchanged. -/
theorem setAttachment_quota (entry : AMEntry) (attachmentID : String)
    (encryptedSize originalSize : Int) (name mimeType : String) (avail : Int)
    (now : String) (hname : ¬name = "") (htype : ¬mimeType = "")
    (hover : sizeIncreaseFor entry attachmentID encryptedSize > avail) :
    setAttachment true entry attachmentID encryptedSize originalSize name mimeType
      (some avail) now =
      JsResult.thrown (outOfSpaceMsg (sizeIncreaseFor entry attachmentID encryptedSize) avail)
        entry := by
  unfold setAttachment
  simp [hname, htype, hover]

/-- Witness for C5, the spec's quota scenario: 100 bytes available, a new
blob encrypting to 150 bytes — out of space, entry untouched. -/
theorem setAttachment_quota_witness :
    setAttachment true ⟨[]⟩ "att1" 150 120 "file.bin" "application/octet-stream"
      (some 100) "TS" = JsResult.thrown (outOfSpaceMsg 150 100) ⟨[]⟩ :=
  setAttachment_quota ⟨[]⟩ "att1" 150 120 "file.bin" "application/octet-stream" 100 "TS"
    (by decide) (by decide) (by decide)

lemma lookupAttr_setAttr (k : String) (v : AttachmentDetails)
    (l : List (String × AttachmentDetails)) : lookupAttr k (setAttr k v l) = some v := by
  induction l with
  | nil => simp [setAttr, lookupAttr]
  | cons p rest ih =>
    obtain ⟨k', v'⟩ := p
    by_cases hk : k' = k <;> simp [setAttr, lookupAttr, hk, ih]

/-- C10: whenever `setAttachment` succeeds — including over a pre-existing
details record for the same attachment ID — the details written onto the
entry have `created = updated = ` the supplied timestamp; the original
creation date of a pre-existing attachment is not preserved. -/
theorem setAttachment_timestamps (supportsAtt : Bool) (entry : AMEntry)
    (attachmentID : String) (encryptedSize originalSize : Int)
    (name mimeType : String) (spaceAvailable : Option Int) (now : String)
    (e2 : AMEntry)
    (h : setAttachment supportsAtt entry attachmentID encryptedSize originalSize
      name mimeType spaceAvailable now = JsResult.ok e2) :
    getAttachmentDetails e2 attachmentID =
      some ⟨attachmentID, name, mimeType, originalSize, encryptedSize, now, now⟩ := by
  unfold setAttachment at h
  unfold getAttachmentDetails
  repeat' split at h
  all_goals first
    | (injection h with h2; subst h2; exact lookupAttr_setAttr _ _ _)
    | simp_all

/-- Witness for C10: updating an attachment whose stored record was created
at `OLDTS` rewrites both `created` and `updated` to the new timestamp. -/
theorem setAttachment_timestamps_witness :
    getAttachmentDetails (JsResult.state (setAttachment true
      ⟨[("BC_ATTACHMENT:att1", ⟨"att1", "old.bin", "text/plain", 5, 10, "OLDTS", "OLDTS"⟩)]⟩
      "att1" 12 7 "new.bin" "text/plain" none "NEWTS")) "att1" =
      some ⟨"att1", "new.bin", "text/plain", 7, 12, "NEWTS", "NEWTS"⟩ :=
  setAttachment_timestamps true
    ⟨[("BC_ATTACHMENT:att1", ⟨"att1", "old.bin", "text/plain", 5, 10, "OLDTS", "OLDTS"⟩)]⟩
    "att1" 12 7 "new.bin" "text/plain" none "NEWTS"
    (JsResult.state (setAttachment true
      ⟨[("BC_ATTACHMENT:att1", ⟨"att1", "old.bin", "text/plain", 5, 10, "OLDTS", "OLDTS"⟩)]⟩
      "att1" 12 7 "new.bin" "text/plain" none "NEWTS")) (by decide)

/-! ## Search (src/source/search/Search.ts) -/

/-- An item of the `results` array built by `searchByURL` (Search.ts lines
179-190): the persisted domain-hit-count and the Levenshtein score of the
best matching URL. -/
structure URLSearchResult where
  domainScore : Nat
  score : Nat
deriving DecidableEq, Repr

/-- The sort comparator from Search.ts lines 193-205, verbatim — including
the second branch, which compares `b.domainScore` with itself and therefore
never returns 1. -/
def searchResultComparator (a b : URLSearchResult) : Int :=
  if a.domainScore > b.domainScore then -1
  else if b.domainScore > b.domainScore then 1
  else if a.score > b.score then 1
  else if b.score > a.score then -1
  else 0

/-- C8 (code bug): take `a` with domain-hit-count 0 and Levenshtein score 1,
and `b` with domain-hit-count 5 and score 2.  Sorting by descending
hit-count must place `b` before `a`, so a correct comparator returns a
positive value on `(a, b)`; the comparator as written returns `-1` on both
`(a, b)` and `(b, a)` — it prefers each element to the other, because the
branch meant to order `b` first compares `b.domainScore` with itself.  The
result order of `Array.prototype.sort` under such an inconsistent comparator
is unspecified, and the engine keeps `a` before `b` whenever it evaluates
`comparator(a, b)` — the claimed descending-hit-count order does not hold. -/
theorem searchByURL_sort_bug :
    (5 : Nat) > (0 : Nat) ∧
    searchResultComparator ⟨0, 1⟩ ⟨5, 2⟩ = -1 ∧
    searchResultComparator ⟨5, 2⟩ ⟨0, 1⟩ = -1 := by decide

/-! ## C9: the domainsRelated predicate -/

/-- JS `String.prototype.indexOf`: position of the first occurrence of `pat`
in `s`, `none` when absent (the empty pattern matches at 0). -/
def firstIndexOf : List Char → List Char → Option Nat
  | [], pat => if pat.isPrefixOf ([] : List Char) then some 0 else none
  | c :: t, pat =>
    if pat.isPrefixOf (c :: t) then some 0
    else (firstIndexOf t pat).map (fun n => n + 1)

/-- JS `s.indexOf(pat)`, with `-1` for no occurrence. -/
def jsIndexOf (s pat : List Char) : Int :=
  match firstIndexOf s pat with
  | some n => (n : Int)
  | none => -1

/-- `domainsRelated` from Search.ts lines 38-47: equal hosts are related;
otherwise the shorter host's **first** occurrence in the longer (via
`indexOf`) must sit exactly at the suffix position. -/
def domainsRelated (domain1 domain2 : List Char) : Bool :=
  if domain1 = domain2 then true
  else if domain1.length > domain2.length then
    jsIndexOf domain1 domain2 == ((domain1.length : Int) - (domain2.length : Int))
  else
    jsIndexOf domain2 domain1 == ((domain2.length : Int) - (domain1.length : Int))

/-- C9 counterexample: `"ab"` is a suffix of `"abab"`, but
`domainsRelated "abab" "ab"` is `false` — `indexOf` finds the earlier
occurrence at position 0, which is not the suffix position 2.  So the
relatedness predicate is not "one is a suffix of the other". -/
theorem domainsRelated_counterexample :
    domainsRelated ['a', 'b', 'a', 'b'] ['a', 'b'] = false ∧
    ['a', 'b'] <:+ ['a', 'b', 'a', 'b'] := by
  refine ⟨by decide, ⟨['a', 'b'], rfl⟩⟩

/-- The relation that `domainsRelated` actually computes on the
shorter/longer pair: the shorter is a suffix of the longer and occurs
nowhere earlier in it. -/
def SuffixNoEarlier (short long : List Char) : Prop :=
  short <:+ long ∧ ∀ j, j < long.length - short.length → ¬ short <+: long.drop j

lemma firstIndexOf_eq_iff (pat : List Char) :
    ∀ (s : List Char) (n : Nat), firstIndexOf s pat = some n ↔
      (pat <+: s.drop n ∧ ∀ j, j < n → ¬ pat <+: s.drop j) := by
  intro s
  induction s with
  | nil =>
    intro n
    by_cases hp : pat.isPrefixOf ([] : List Char)
    · have hpe : pat = [] := List.prefix_nil.mp (List.isPrefixOf_iff_prefix.mp hp)
      subst hpe
      simp only [firstIndexOf, if_pos hp, List.drop_nil, List.nil_prefix, true_and,
        Option.some.injEq]
      constructor
      · intro h j hj
        omega
      · intro h
        by_contra hne
        exact (h 0 (by omega)) (by simp)
    · have hpp : ¬ pat <+: [] := fun hx => hp (List.isPrefixOf_iff_prefix.mpr hx)
      simp only [firstIndexOf, if_neg hp, List.drop_nil]
      constructor
      · intro h
        exact absurd h (by simp)
      · intro ⟨h1, _⟩
        exact absurd h1 hpp
  | cons c t ih =>
    intro n
    by_cases hp : pat.isPrefixOf (c :: t)
    · have hpp : pat <+: c :: t := List.isPrefixOf_iff_prefix.mp hp
      simp only [firstIndexOf, if_pos hp, Option.some.injEq]
      constructor
      · intro h
        subst h
        exact ⟨hpp, fun j hj => by omega⟩
      · intro ⟨h1, h2⟩
        by_contra hne
        exact (h2 0 (by omega)) hpp
    · have hpp : ¬ pat <+: c :: t := fun hx => hp (List.isPrefixOf_iff_prefix.mpr hx)
      simp only [firstIndexOf, if_neg hp]
      cases n with
      | zero =>
        constructor
        · intro h
          cases hft : firstIndexOf t pat with
          | none => rw [hft] at h; exact absurd h (by simp)
          | some m => rw [hft] at h; simp at h
        · intro ⟨h1, _⟩
          exact absurd (h1 : pat <+: c :: t) hpp
      | succ m =>
        constructor
        · intro h
          cases hft : firstIndexOf t pat with
          | none => rw [hft] at h; exact absurd h (by simp)
          | some m2 =>
            rw [hft] at h
            have hm : m2 = m := by simp at h; omega
            subst hm
            obtain ⟨g1, g2⟩ := (ih m2).mp hft
            refine ⟨by simpa [List.drop_succ_cons] using g1, ?_⟩
            intro j hj
            cases j with
            | zero => simpa using hpp
            | succ j2 =>
              rw [List.drop_succ_cons]
              exact g2 j2 (by omega)
        · intro ⟨h1, h2⟩
          have h1t : pat <+: t.drop m := by simpa [List.drop_succ_cons] using h1
          have h2t : ∀ j, j < m → ¬ pat <+: t.drop j := by
            intro j hj
            have := h2 (j + 1) (by omega)
            rwa [List.drop_succ_cons] at this
          rw [(ih m).mpr ⟨h1t, h2t⟩]
          rfl

/-- When the pattern fits, `indexOf` returning exactly the suffix position
characterises "suffix with no earlier occurrence". -/
lemma jsIndexOf_suffix (long short : List Char) (hL : short.length ≤ long.length) :
    jsIndexOf long short = ((long.length : Int) - (short.length : Int)) ↔
      SuffixNoEarlier short long := by
  have hsuffix_drop : short <:+ long ↔ short <+: long.drop (long.length - short.length) := by
    rw [List.suffix_iff_eq_drop]
    constructor
    · intro h
      rw [← h]
    · intro h
      have hlen : (long.drop (long.length - short.length)).length = short.length := by
        rw [List.length_drop]
        omega
      exact List.IsPrefix.eq_of_length h (by omega)
  cases hf : firstIndexOf long short with
  | none =>
    have hjs : jsIndexOf long short = -1 := by unfold jsIndexOf; rw [hf]
    rw [hjs]
    constructor
    · intro h
      exact absurd h (by omega)
    · intro ⟨h1, h2⟩
      have := (firstIndexOf_eq_iff short long (long.length - short.length)).mpr
        ⟨hsuffix_drop.mp h1, fun j hj => h2 j hj⟩
      rw [hf] at this
      exact absurd this (by simp)
  | some n =>
    have hjs : jsIndexOf long short = (n : Int) := by unfold jsIndexOf; rw [hf]
    rw [hjs]
    obtain ⟨g1, g2⟩ := (firstIndexOf_eq_iff short long n).mp hf
    constructor
    · intro h
      have hn : n = long.length - short.length := by omega
      subst hn
      exact ⟨hsuffix_drop.mpr g1, g2⟩
    · intro ⟨h1, h2⟩
      have h1d := hsuffix_drop.mp h1
      have hn : n = long.length - short.length := by
        rcases Nat.lt_trichotomy n (long.length - short.length) with hlt | heq | hgt
        · exact absurd g1 (h2 n hlt)
        · exact heq
        · exact absurd h1d (g2 _ hgt)
      omega

/-- C9 (amended): `domainsRelated d1 d2` holds iff the shorter (or
equal-length) host is a suffix of the other **and** its first occurrence in
the other is at the suffix position — equivalently, it does not also occur
earlier.  In particular two equal hosts are related, and a proper suffix
that also occurs earlier in the longer host (such as `"ab"` in `"abab"`) is
**not** related. -/
theorem domainsRelated_iff (d1 d2 : List Char) :
    domainsRelated d1 d2 = true ↔
      (d1.length > d2.length ∧ SuffixNoEarlier d2 d1) ∨
      (d1.length ≤ d2.length ∧ SuffixNoEarlier d1 d2) := by
  unfold domainsRelated
  by_cases heq : d1 = d2
  · subst heq
    rw [if_pos rfl]
    constructor
    · intro _
      exact Or.inr ⟨Nat.le_refl _, List.suffix_refl d1, fun j hj => absurd hj (by omega)⟩
    · intro _
      rfl
  · rw [if_neg heq]
    by_cases hlen : d1.length > d2.length
    · rw [if_pos hlen, beq_iff_eq, jsIndexOf_suffix d1 d2 (by omega)]
      constructor
      · intro h
        exact Or.inl ⟨hlen, h⟩
      · intro h
        rcases h with ⟨_, h⟩ | ⟨hle, _⟩
        · exact h
        · omega
    · rw [if_neg hlen, beq_iff_eq, jsIndexOf_suffix d2 d1 (by omega)]
      constructor
      · intro h
        exact Or.inr ⟨by omega, h⟩
      · intro h
        rcases h with ⟨hgt, _⟩ | ⟨_, h⟩
        · omega
        · exact h
